import Mathlib

/-!
Verification development for the payload-better-auth adapter
(`src/adapter/index.ts`) and its collection synthesizer
(`betterAuthCollections`).

The TypeScript code is shallowly embedded: JSON-ish runtime values become
the inductive `JSValue`, records (JS objects) become ordered association
lists with JS assignment semantics (`setV` overwrites in place, appends
otherwise), and each source function is translated definition by
definition.  JS `Date` objects are represented by their epoch-milliseconds
payload; the runtime's date-string parser (`new Date(s)` +
`isNaN(getTime())`) is an explicit parameter `parseDate : String → Option
Int` of the adapter parameters, `none` standing for an invalid date.
-/

/-- A JS runtime value as the adapter manipulates it: strings, numbers
(the adapter only ever produces integers), booleans, `Date` objects
(epoch milliseconds), and `null`.  `undefined` never flows through the
store boundary (JSON round-trips drop it), so an absent key models it. -/
inductive JSValue
  | str (s : String)
  | num (n : Int)
  | bool (b : Bool)
  | date (ms : Int)
  | null
deriving DecidableEq, Repr

/-- A JS object: ordered key/value pairs, keys unique in every object the
runtime actually builds. -/
abbrev Rec := List (String × JSValue)

/-- Property read `r[k]`: the first binding of `k` (JS objects have at most
one). -/
def getV : Rec → String → Option JSValue
  | [], _ => none
  | (k', v) :: rest, k => if k' = k then some v else getV rest k

/-- Property write `r[k] = v`: overwrite the existing binding in place,
else append — exactly JS object-assignment key ordering. -/
def setV : Rec → String → JSValue → Rec
  | [], k, v => [(k, v)]
  | (k', v') :: rest, k, v =>
      if k' = k then (k, v) :: rest else (k', v') :: setV rest k v

/-- Object spread `{...a, ...b}`: start from `a`, assign every entry of `b`
in order (so `b` wins on every overlapping key). -/
def spreadJS (a b : Rec) : Rec :=
  b.foldl (fun acc p => setV acc p.1 p.2) a

/-- Keys of a record are pairwise distinct (every record a JS runtime
builds satisfies this). -/
def keysUnique (r : Rec) : Prop := (r.map Prod.fst).Nodup

/-! ### String helpers (self-contained models of the JS string operations) -/

/-- `post` is a prefix of `l` (character lists). -/
def listStarts : List Char → List Char → Bool
  | [], _ => true
  | _ :: _, [] => false
  | a :: as, b :: bs => if a = b then listStarts as bs else false

/-- JS `s.endsWith(post)`. -/
def strEndsWith (s post : String) : Bool :=
  listStarts post.data.reverse s.data.reverse

/-- JS `s.slice(0, -n)` (drop the last `n` characters). -/
def strDropRight (s : String) (n : Nat) : String :=
  String.mk (s.data.take (s.data.length - n))

/-- `fieldName.replace(/(_id|Id)$/, '')` — strip a trailing `_id` or `Id`. -/
def stripIdSuffix (s : String) : String :=
  if strEndsWith s "_id" then strDropRight s 3
  else if strEndsWith s "Id" then strDropRight s 2
  else s

/-- `/(?:Id|_id)$/.test(key)` — the "looks like an ID" suffix heuristic. -/
def matchesIdHeuristic (k : String) : Bool :=
  strEndsWith k "Id" || strEndsWith k "_id"

/-- The field name carries a strippable reference suffix. -/
def hasIdSuffix (f : String) : Bool :=
  strEndsWith f "Id" || strEndsWith f "_id"

/-- `/^\d+$/.test(s)` — nonempty, all ASCII digits. -/
def isDigits (s : String) : Bool :=
  !s.data.isEmpty && s.data.all (·.isDigit)

/-- Numeric value of a digit run. -/
def charDigitsVal (l : List Char) : Nat :=
  l.foldl (fun a c => a * 10 + (c.toNat - 48)) 0

/-- Whitespace as JS `parseInt` skips it. -/
def isWhitespaceChar (c : Char) : Bool :=
  if c = ' ' then true else if c = '\t' then true
  else if c = '\n' then true else if c = '\r' then true else false

/-- The maximal leading digit run, `none` when there is none. -/
def digitsPrefixVal (cs : List Char) : Option Nat :=
  let ds := cs.takeWhile (·.isDigit)
  if ds.isEmpty then none else some (charDigitsVal ds)

/-- JS `parseInt(s, 10)`: skip leading whitespace, optional sign, then the
maximal digit run; `NaN` (here `none`) when no digit follows. -/
def parseIntJS (s : String) : Option Int :=
  match s.data.dropWhile isWhitespaceChar with
  | '-' :: rest => (digitsPrefixVal rest).map (fun n => -(n : Int))
  | '+' :: rest => (digitsPrefixVal rest).map (fun n => (n : Int))
  | cs => (digitsPrefixVal cs).map (fun n => (n : Int))

/-- JS template stringification `${value}` for the values the adapter can
hold (a `Date`'s string form is abstracted by its epoch payload). -/
def jsToString : JSValue → String
  | .str s => s
  | .num n => toString n
  | .bool b => if b then "true" else "false"
  | .date ms => toString ms
  | .null => "null"

/-! ### The introspected Better Auth schema (§3 of the spec) -/

/-- Better Auth field types as the synthesizer's `mapFieldType` switches on
them (anything else falls to the `default` arm). -/
inductive FieldType
  | string | number | boolean | date | json | object | stringArray | numberArray
deriving DecidableEq, Repr

/-- A field's `references` entry: the referenced model (the `field` member
is never read by this repository's code). -/
structure RefDef where
  model : Option String := none
deriving DecidableEq, Repr

/-- A Better Auth field descriptor (the members this repository reads). -/
structure FieldDef where
  type : FieldType := FieldType.string
  fieldName : Option String := none
  required : Option Bool := none
  unique : Option Bool := none
  references : Option RefDef := none
  /-- `defaultValue`, with a thunk modelled by the value it returns
  (`none` = absent). -/
  defaultValue : Option JSValue := none
deriving DecidableEq, Repr

/-- One model of the schema: optional rename plus ordered fields. -/
structure ModelSchema where
  modelName : Option String := none
  fields : List (String × FieldDef) := []
deriving DecidableEq, Repr

/-- The full introspected schema, model key → model. -/
abbrev BASchema := List (String × ModelSchema)

/-- First association for `k`. -/
def lookupAssoc {α : Type} (l : List (String × α)) (k : String) : Option α :=
  match l with
  | [] => none
  | (k', v) :: rest => if k' = k then some v else lookupAssoc rest k

/-- `getModelSchema`: direct lookup, then the singular form (trailing `s`
stripped) for plural model names. -/
def getModelSchema (schema : BASchema) (model : String) : Option ModelSchema :=
  match lookupAssoc schema model with
  | some ms => some ms
  | none =>
      let singular := if strEndsWith model "s" then strDropRight model 1 else model
      lookupAssoc schema singular

/-- `modelSchema.fields[field]`. -/
def lookupField (ms : ModelSchema) (field : String) : Option FieldDef :=
  lookupAssoc ms.fields field

/-- Modelled from the better-auth adapter factory's `getFieldName` helper
(an external dependency; the spec describes it as "applies field-level
rename"): the field's declared storage-name override when present, else
the field key itself. -/
def getFieldName (schema : BASchema) (model field : String) : String :=
  match getModelSchema schema model with
  | some ms =>
      match lookupField ms field with
      | some fd => fd.fieldName.getD field
      | none => field
  | none => field

/-- `getPayloadFieldName`: apply the field-level rename, then strip the
`Id`/`_id` suffix when the schema marks the field as a reference. -/
def getPayloadFieldName (schema : BASchema) (model field : String) : String :=
  let mappedField := getFieldName schema model field
  match getModelSchema schema model with
  | some ms =>
      match lookupField ms field with
      | some fd =>
          if fd.references.isSome then stripIdSuffix mappedField else mappedField
      | none => mappedField
  | none => mappedField

/-! ### ID type mode and coercions (§4.2/§4.3 of the spec) -/

/-- The adapter's process-wide ID type mode. -/
inductive IdType
  | number | text
deriving DecidableEq, Repr

/-- `convertId`: string → parsed int in numeric mode (unchanged when the
parse is `NaN`), number → string in text mode, identity otherwise. -/
def convertId (idType : IdType) (id : JSValue) : JSValue :=
  match idType, id with
  | IdType.number, JSValue.str s =>
      match parseIntJS s with
      | some n => JSValue.num n
      | none => id
  | IdType.text, JSValue.num n => JSValue.str (toString n)
  | _, _ => id

/-- Everything `payloadAdapter` resolves once at construction and threads
through the transforms: the introspected schema, the ID type mode, the
allow/block lists and the runtime's date-string parser. -/
structure AdapterParams where
  schema : BASchema
  idType : IdType
  idFieldsAllowlist : List String := []
  idFieldsBlocklist : List String := []
  parseDate : String → Option Int := fun _ => none

/-- The inbound reference-value coercion inside `transformDataForPayload`:
numeric mode parses string IDs (kept unchanged when `NaN`), text mode
stringifies numeric IDs. -/
def coerceRefValue (idType : IdType) (v : JSValue) : JSValue :=
  match idType, v with
  | IdType.number, JSValue.str s =>
      match parseIntJS s with
      | some n => JSValue.num n
      | none => v
  | IdType.text, JSValue.num n => JSValue.str (toString n)
  | _, _ => v

/-- `transformDataForPayload`: rewrite every key through
`getPayloadFieldName` and coerce non-null reference values to the ID type
mode; a model with no schema entry passes the record through unchanged. -/
def transformDataForPayload (P : AdapterParams) (model : String) (data : Rec) : Rec :=
  match getModelSchema P.schema model with
  | none => data
  | some ms =>
      data.foldl
        (fun acc p =>
          let payloadKey := getPayloadFieldName P.schema model p.1
          let isRef :=
            match lookupField ms p.1 with
            | some fd => fd.references.isSome
            | none => false
          let tv :=
            if isRef = true ∧ p.2 ≠ JSValue.null then coerceRefValue P.idType p.2
            else p.2
          setV acc payloadKey tv)
        []

/-- First half of `transformDataFromPayload`'s loop body: for a reference
field whose stripped name Payload returned (read from the original `data`)
and whose suffixed key is not yet in the accumulator, restore the suffixed
key. -/
def restoreRefStep (data acc : Rec) (fk : String) (fd : FieldDef) : Rec :=
  if fd.references.isSome then
    match getV data (stripIdSuffix fk), getV acc fk with
    | some v, none => setV acc fk v
    | _, _ => acc
  else acc

/-- Second half of the loop body: a date-typed field holding a string is
run through the date parser (`new Date(s)`), replaced only when valid. -/
def dateConvStep (P : AdapterParams) (acc : Rec) (fk : String) (fd : FieldDef) : Rec :=
  if fd.type = FieldType.date then
    match getV acc fk with
    | some (JSValue.str s) =>
        match P.parseDate s with
        | some ms' => setV acc fk (JSValue.date ms')
        | none => acc
    | _ => acc
  else acc

/-- One iteration of `transformDataFromPayload`'s schema-field loop:
reference-key restoration, then date conversion. -/
def restoreStep (P : AdapterParams) (data acc : Rec) (fk : String) (fd : FieldDef) : Rec :=
  dateConvStep P (restoreRefStep data acc fk fd) fk fd

/-- The per-entry value rewrite of the numeric-ID pass (lines 403–420 of
the adapter): a pure-digit string is parsed when the key matches the
suffix heuristic or the allow-list and is not block-listed. -/
def numConvVal (allow block : List String) (k : String) (v : JSValue) : JSValue :=
  match v with
  | JSValue.str s =>
      if (matchesIdHeuristic k || allow.contains k) && !(block.contains k) then
        if isDigits s then
          match parseIntJS s with
          | some n => JSValue.num n
          | none => v
        else v
      else v
  | _ => v

/-- The numeric-ID pass of `transformDataFromPayload`: the source iterates
a snapshot of the entries and reassigns each key's own value, which on
unique-keyed JS objects is exactly a per-entry map. -/
def convertIdFields (allow block : List String) (r : Rec) : Rec :=
  r.map (fun p => (p.1, numConvVal allow block p.1 p.2))

/-- `transformDataFromPayload`: copy the store's record, run the schema
loop (reference-key restoration + date conversion), then — in numeric
mode — the heuristic ID conversion; a model with no schema entry passes
the record through unchanged. -/
def transformDataFromPayload (P : AdapterParams) (model : String) (data : Rec) : Rec :=
  match getModelSchema P.schema model with
  | none => data
  | some ms =>
      let afterRestore := ms.fields.foldl (fun acc p => restoreStep P data acc p.1 p.2) data
      if P.idType = IdType.number then
        convertIdFields P.idFieldsAllowlist P.idFieldsBlocklist afterRestore
      else afterRestore

/-! ### Where-clause translation and the operations layer (§4.3) -/

/-- One Better Auth query predicate. -/
structure WhereCond where
  field : String
  operator : String
  value : JSValue
  connector : Option String := none
deriving DecidableEq, Repr

/-- `convertOperator`: a Better Auth operator becomes a Payload condition
(operator name, value); `starts_with`/`ends_with` build `like` patterns,
anything unknown falls back to `equals`. -/
def convertOperator (op : String) (v : JSValue) : String × JSValue :=
  if op = "eq" then ("equals", v)
  else if op = "ne" then ("not_equals", v)
  else if op = "gt" then ("greater_than", v)
  else if op = "gte" then ("greater_than_equal", v)
  else if op = "lt" then ("less_than", v)
  else if op = "lte" then ("less_than_equal", v)
  else if op = "in" then ("in", v)
  else if op = "contains" then ("contains", v)
  else if op = "starts_with" then ("like", JSValue.str (jsToString v ++ "%"))
  else if op = "ends_with" then ("like", JSValue.str ("%" ++ jsToString v))
  else ("equals", v)

/-- A translated Payload where clause: empty (`{}`), a single field
condition, or the AND/OR group form (an absent group is the empty list). -/
inductive PWhere
  | empty
  | single (field : String) (cond : String × JSValue)
  | groups (ands ors : List (String × (String × JSValue)))
deriving DecidableEq, Repr

/-- `convertWhereToPayload`: empty list → `{}`; one predicate → a single
condition; otherwise partition on `connector === 'OR'` into the two
groups. -/
def convertWhereToPayload (schema : BASchema) (model : String)
    (w : List WhereCond) : PWhere :=
  match w with
  | [] => PWhere.empty
  | [c] =>
      PWhere.single (getPayloadFieldName schema model c.field)
        (convertOperator c.operator c.value)
  | _ =>
      let ands := w.filter (fun c => decide (c.connector ≠ some "OR"))
      let ors := w.filter (fun c => decide (c.connector = some "OR"))
      PWhere.groups
        (ands.map fun c =>
          (getPayloadFieldName schema model c.field, convertOperator c.operator c.value))
        (ors.map fun c =>
          (getPayloadFieldName schema model c.field, convertOperator c.operator c.value))

/-- `extractSingleId`: a lone `id`-equality predicate whose value is a
string or a number yields the point-lookup fast path. -/
def extractSingleId (w : List WhereCond) : Option JSValue :=
  match w with
  | [c] =>
      if c.field = "id" ∧ c.operator = "eq" then
        match c.value with
        | JSValue.str s => some (JSValue.str s)
        | JSValue.num n => some (JSValue.num n)
        | _ => none
      else none
  | _ => none

/-- A store-level error as the adapter inspects it: an optional HTTP-ish
status (`'status' in error` = the field is `some`). -/
structure StoreErr where
  status : Option Int := none
deriving DecidableEq, Repr

/-- The document-store client surface the modelled operations call
(`payload.findByID` / `payload.find`): `find` takes the translated where
clause, limit, page and sort string. -/
structure Store where
  findByID : JSValue → Except StoreErr Rec
  find : PWhere → Nat → Nat → Option String → Except StoreErr (List Rec)

/-- `create`: translate inbound, insert, translate the store result
outbound and merge it **over** the caller's input (`{...data,
...transformed}`); store failures are logged and re-thrown. -/
def create (P : AdapterParams) (storeCreate : Rec → Except StoreErr Rec)
    (model : String) (data : Rec) : Except StoreErr Rec :=
  match storeCreate (transformDataForPayload P model data) with
  | Except.ok result =>
      Except.ok (spreadJS data (transformDataFromPayload P model result))
  | Except.error e => Except.error e

/-- `findOne`: the single-`id`-equality fast path goes through
`findByID` with the ID coerced to the ID type mode, catching the store's
404 signal as `none` and re-throwing anything else; every other query is a
filtered limit-1 list query. -/
def findOne (P : AdapterParams) (store : Store) (model : String)
    (whereCls : List WhereCond) : Except StoreErr (Option Rec) :=
  match extractSingleId whereCls with
  | some idv =>
      match store.findByID (convertId P.idType idv) with
      | Except.ok r => Except.ok (some (transformDataFromPayload P model r))
      | Except.error e =>
          if e.status = some 404 then Except.ok none else Except.error e
  | none =>
      match store.find (convertWhereToPayload P.schema model whereCls) 1 1 none with
      | Except.ok docs =>
          Except.ok (docs.head?.map (transformDataFromPayload P model))
      | Except.error e => Except.error e

/-- The page `findMany` issues to the store:
`offset ? Math.floor(offset / (limit ?? 100)) + 1 : 1` (a missing or zero
offset is falsy). -/
def findManyPage (limit offset : Option Nat) : Nat :=
  match offset with
  | none => 1
  | some o => if o = 0 then 1 else o / (limit.getD 100) + 1

/-- `findMany`: translate the (optional) where clause, issue a paginated
list query with `limit ?? 100` and the page above, and map each document
outbound. -/
def findMany (P : AdapterParams) (store : Store) (model : String)
    (whereCls : Option (List WhereCond)) (limit offset : Option Nat)
    (sortBy : Option (String × Bool)) : Except StoreErr (List Rec) :=
  let pw :=
    match whereCls with
    | some w => convertWhereToPayload P.schema model w
    | none => PWhere.empty
  let sortStr := sortBy.map (fun sb =>
    (if sb.2 then "-" else "") ++ getPayloadFieldName P.schema model sb.1)
  match store.find pw (limit.getD 100) (findManyPage limit offset) sortStr with
  | Except.ok docs => Except.ok (docs.map (transformDataFromPayload P model))
  | Except.error e => Except.error e

/-! ### A fixture store (the equality fragment the claims exercise) -/

/-- Evaluate a single translated condition against a document; the fixture
models the `equals`/`not_equals` fragment structurally and rejects the
rest (no claim queries through another operator). -/
def evalCond (d : Rec) (field : String) (c : String × JSValue) : Bool :=
  if c.1 = "equals" then decide (getV d field = some c.2)
  else if c.1 = "not_equals" then decide (getV d field ≠ some c.2)
  else false

/-- Evaluate a translated where clause against a document. -/
def evalPWhere (pw : PWhere) (d : Rec) : Bool :=
  match pw with
  | PWhere.empty => true
  | PWhere.single f c => evalCond d f c
  | PWhere.groups ands ors =>
      ands.all (fun p => evalCond d p.1 p.2) &&
        (ors.isEmpty || ors.any (fun p => evalCond d p.1 p.2))

/-- An in-memory fixture store over a document list: `findByID` finds the
first document whose `id` equals the requested one (404 otherwise), and
`find` filters, then pages. -/
def fixtureStore (docs : List Rec) : Store where
  findByID := fun idv =>
    match docs.find? (fun d => decide (getV d "id" = some idv)) with
    | some d => Except.ok d
    | none => Except.error { status := some 404 }
  find := fun pw limit page _sort =>
    Except.ok (((docs.filter (fun d => evalPWhere pw d)).drop ((page - 1) * limit)).take limit)

/-! ### Adapter construction (`payloadAdapter`) and its warnings (§7) -/

/-- Better Auth's `advanced.database.generateId` as the adapter inspects
it: `'serial'`, or anything else explicitly set (a custom generator /
`false`). -/
inductive GenerateIdSetting
  | serial | custom
deriving DecidableEq, Repr

/-- The slice of `BetterAuthOptions` the adapter constructor reads:
the four core models' rename overrides and the ID-generation setting. -/
structure BAOptions where
  userModelName : Option String := none
  sessionModelName : Option String := none
  accountModelName : Option String := none
  verificationModelName : Option String := none
  generateId : Option GenerateIdSetting := none
deriving DecidableEq, Repr

/-- `detectIdType`: anything explicitly set other than `'serial'` means
text (UUID); otherwise number (SERIAL, Payload's default). -/
def detectIdType (opts : BAOptions) : IdType :=
  match opts.generateId with
  | some GenerateIdSetting.serial => IdType.number
  | some GenerateIdSetting.custom => IdType.text
  | none => IdType.number

/-- A construction-time `console.warn`, structured by which message it is
and which model it names. -/
inductive AdapterWarning
  | serialIdMismatch
  | pluralModelName (model : String) (modelName : String)
deriving DecidableEq, Repr

/-- The warning mentions the given core model. -/
def warningMentions : AdapterWarning → String → Bool
  | AdapterWarning.pluralModelName m _, m' => decide (m = m')
  | AdapterWarning.serialIdMismatch, _ => false

/-- `['user', 'session', 'account', 'verification']` paired with each
model's `modelName` override. -/
def coreModelEntries (opts : BAOptions) : List (String × Option String) :=
  [("user", opts.userModelName), ("session", opts.sessionModelName),
   ("account", opts.accountModelName), ("verification", opts.verificationModelName)]

/-- The plural-`modelName` warning one core model contributes: exactly one
warning when its override ends in `s`, none otherwise. -/
def pluralWarnFor (p : String × Option String) : List AdapterWarning :=
  match p.2 with
  | some mn =>
      if strEndsWith mn "s" then [AdapterWarning.pluralModelName p.1 mn] else []
  | none => []

/-- Every warning `payloadAdapter`'s returned factory logs at construction:
the SERIAL/`generateId` mismatch warning, then the plural-`modelName` loop
over the core models. -/
def constructionWarnings (idTypeCfg : Option IdType) (opts : BAOptions) :
    List AdapterWarning :=
  let idType := idTypeCfg.getD (detectIdType opts)
  (if idType = IdType.number ∧ opts.generateId ≠ none ∧
      opts.generateId ≠ some GenerateIdSetting.serial
   then [AdapterWarning.serialIdMismatch] else []) ++
    (coreModelEntries opts).foldr (fun p acc => pluralWarnFor p ++ acc) []

/-- The `AdapterFactoryConfig` the constructor hands to
`createAdapterFactory` (the members it sets from its inputs). -/
structure FactoryConfig where
  adapterId : String
  adapterName : String
  usePlural : Bool
  disableIdGeneration : Bool
  supportsNumericIds : Bool
  transaction : Bool
  debugLogs : Bool
deriving DecidableEq, Repr

/-- `payloadAdapter(config)(options)` up to the factory call: resolve the
ID type (explicit config before auto-detection), log the warnings, and
build the factory configuration — there is no throwing branch. -/
def payloadAdapterConstruct (idTypeCfg : Option IdType) (enableDebugLogs : Bool)
    (opts : BAOptions) : List AdapterWarning × FactoryConfig :=
  let idType := idTypeCfg.getD (detectIdType opts)
  (constructionWarnings idTypeCfg opts,
   { adapterId := "payload-adapter"
     adapterName := "Payload CMS Adapter"
     usePlural := true
     disableIdGeneration := decide (idType = IdType.number)
     supportsNumericIds := true
     transaction := false
     debugLogs := enableDebugLogs })

/-! ### The collection synthesizer (`betterAuthCollections`, §4.4) -/

/-- A generated/declared Payload field, with the members the synthesizer
writes; `access` is an opaque token for a host-declared per-field access
rule (the synthesizer never writes it, so its exact shape is irrelevant). -/
structure PField where
  name : Option String := none
  ftype : String := "text"
  relationTo : Option String := none
  required : Option Bool := none
  unique : Option Bool := none
  index : Option Bool := none
  saveToJWT : Option Bool := none
  adminDescription : Option String := none
  adminReadOnly : Option Bool := none
  defaultValue : Option JSValue := none
  access : Option String := none
deriving DecidableEq, Repr

/-- A Payload collection as the synthesizer reads and rewrites it; `access`
is again an opaque token for the collection's access rules, preserved
verbatim by the object spread. -/
structure CollectionCfg where
  slug : String
  fields : List PField
  access : Option String := none
  useAsTitle : Option String := none
  adminGroup : Option String := none
deriving DecidableEq, Repr

/-- `f.charAt(0).toUpperCase() + f.slice(1)`. -/
def capitalizeFirst (s : String) : String :=
  match s.data with
  | [] => ""
  | c :: rest => String.mk (c.toUpper :: rest)

/-- `getSaveToJWT`: session/user include/exclude lists (session also
matches suffixed forms), account and verification always excluded,
everything else left to Payload. -/
def getSaveToJWT (modelKey fieldName : String) : Option Bool :=
  if modelKey = "session" then
    let includeFields := ["token", "expiresAt", "user", "userId", "ipAddress",
      "userAgent", "activeOrganizationId", "activeTeamId"]
    if includeFields.any (fun f =>
        decide (fieldName = f) || strEndsWith fieldName (capitalizeFirst f)) then
      some true
    else if ["createdAt", "updatedAt"].contains fieldName then some false
    else none
  else if modelKey = "user" then
    let includeFields := ["role", "email", "emailVerified", "name",
      "twoFactorEnabled", "banned"]
    let excludeFields := ["image", "password", "banReason"]
    if includeFields.contains fieldName then some true
    else if excludeFields.contains fieldName then some false
    else none
  else if modelKey = "account" then some false
  else if modelKey = "verification" then some false
  else none

/-- `pluralize`: append `s` unless the name already ends in `s`. -/
def pluralize (name : String) : String :=
  if strEndsWith name "s" then name else name ++ "s"

/-- `mapFieldType`: the Better Auth type → Payload field type switch. -/
def mapFieldType (t : FieldType) (fieldName : String) (hasReferences : Bool) : String :=
  if hasReferences then "relationship"
  else
    match t with
    | FieldType.boolean => "checkbox"
    | FieldType.number => "number"
    | FieldType.date => "date"
    | FieldType.string => if fieldName = "email" then "email" else "text"
    | FieldType.json => "json"
    | FieldType.object => "json"
    | FieldType.stringArray => "json"
    | FieldType.numberArray => "text"

/-- `extractRelationTarget`: infer the related collection from the field
name (suffix stripped, pluralized when configured). -/
def extractRelationTarget (fieldName : String) (usePlural : Bool) : String :=
  let base := stripIdSuffix fieldName
  if usePlural then pluralize base else base

/-- `getExistingFieldNames`: the truthy `name`s the collection already
declares. -/
def getExistingFieldNames (fields : List PField) : List String :=
  fields.foldr
    (fun f acc =>
      match f.name with
      | some n => if n = "" then acc else n :: acc
      | none => acc)
    []

/-- The synthesized `defaultValue` member: absent stays absent, and a
resolved value of `null` is also dropped. -/
def synthDefaultValue (dv : Option JSValue) : Option JSValue :=
  match dv with
  | some v => if v = JSValue.null then none else some v
  | none => none

/-- The field `augmentCollectionWithMissingFields` appends for one missing
schema field (relationship or scalar branch of the source). -/
def buildMissingField (modelKey : String) (usePlural configureSaveToJWT : Bool)
    (fk : String) (fd : FieldDef) (payloadFieldName : String) : PField :=
  let saveToJWT := if configureSaveToJWT then getSaveToJWT modelKey payloadFieldName else none
  if fd.references.isSome then
    let relationTo :=
      match fd.references with
      | some r =>
          match r.model with
          | some m => if usePlural then pluralize m else m
          | none => extractRelationTarget fk usePlural
      | none => extractRelationTarget fk usePlural
    { name := some payloadFieldName
      ftype := "relationship"
      relationTo := some relationTo
      required := some ((fd.required).getD false)
      index := some true
      adminDescription := some ("Auto-added by Better Auth (" ++ fk ++ ")")
      saveToJWT := saveToJWT }
  else
    let isReadOnly := ["twoFactorEnabled"].contains payloadFieldName
    { name := some payloadFieldName
      ftype := mapFieldType fd.type fk false
      adminDescription := some ("Auto-added by Better Auth (" ++ fk ++ ")")
      adminReadOnly := if isReadOnly then some true else none
      saveToJWT := saveToJWT
      required := if fd.required = some true then some true else none
      unique := if fd.unique = some true then some true else none
      index := if fd.unique = some true then some true else none
      defaultValue := synthDefaultValue fd.defaultValue }

/-- The name the synthesizer compares and appends under: the field's
storage-name override (else the key), suffix-stripped for reference
fields. -/
def translatedFieldName (fk : String) (fd : FieldDef) : String :=
  if fd.references.isSome then stripIdSuffix (fd.fieldName.getD fk)
  else fd.fieldName.getD fk

/-- The loop body of `augmentCollectionWithMissingFields`: walk the schema
fields in order, skip `id`/`createdAt`/`updatedAt`, translate each name
(rename override, then suffix strip for references), skip names the
collection already declares, and collect the rest. -/
def missingFieldsList (existing : List String) (modelKey : String)
    (usePlural configureSaveToJWT : Bool) :
    List (String × FieldDef) → List PField
  | [] => []
  | (fk, fd) :: rest =>
      if fk = "id" ∨ fk = "createdAt" ∨ fk = "updatedAt" then
        missingFieldsList existing modelKey usePlural configureSaveToJWT rest
      else
        if existing.contains (translatedFieldName fk fd) then
          missingFieldsList existing modelKey usePlural configureSaveToJWT rest
        else
          buildMissingField modelKey usePlural configureSaveToJWT fk fd
              (translatedFieldName fk fd) ::
            missingFieldsList existing modelKey usePlural configureSaveToJWT rest

/-- `augmentCollectionWithMissingFields`: compute the missing fields and —
only when there are any — append them after the collection's own fields;
everything else of the collection is spread through unchanged. -/
def augmentCollectionWithMissingFields (collection : CollectionCfg)
    (table : ModelSchema) (usePlural : Bool) (modelKey : String)
    (configureSaveToJWT : Bool) : CollectionCfg :=
  let existing := getExistingFieldNames collection.fields
  let missing := missingFieldsList existing modelKey usePlural configureSaveToJWT table.fields
  if missing.isEmpty then collection
  else { collection with fields := collection.fields ++ missing }

/-! ### The first-user-admin hook (`createFirstUserAdminHook`) -/

/-- JS `x ?? d` on a property read: `undefined` (absent) and `null` both
fall back. -/
def jsCoalesce (x : Option JSValue) (d : JSValue) : JSValue :=
  match x with
  | some JSValue.null => d
  | some v => v
  | none => d

/-- The options of the first-user-admin hook (defaults `admin`/`user`/
`role` applied inside). -/
structure FirstUserAdminOptions where
  adminRole : Option String := none
  defaultRole : Option String := none
  roleField : Option String := none
deriving DecidableEq, Repr

/-- `createFirstUserAdminHook`'s returned `beforeChange` hook, with the
authorization-bypassing `count` call's outcome passed in: non-create
operations pass through; a zero count forces the admin role; a nonzero
count keeps the caller's role or applies the default; a failed count falls
back to caller-or-default and still returns (never blocks the create). -/
def firstUserAdminHook (opts : FirstUserAdminOptions) (data : Rec)
    (operation : String) (countResult : Except StoreErr Nat) : Rec :=
  let adminRole := opts.adminRole.getD "admin"
  let defaultRole := opts.defaultRole.getD "user"
  let roleField := opts.roleField.getD "role"
  if operation ≠ "create" then data
  else
    match countResult with
    | Except.ok totalDocs =>
        if totalDocs = 0 then setV data roleField (JSValue.str adminRole)
        else setV data roleField (jsCoalesce (getV data roleField) (JSValue.str defaultRole))
    | Except.error _ =>
        setV data roleField (jsCoalesce (getV data roleField) (JSValue.str defaultRole))

/-! ### Concrete example data (used by the closed witness theorems) -/

/-- A `session` model whose `userId` field references `user`. -/
def exSessionSchema : BASchema :=
  [("session", { fields := [("userId", { references := some {} }), ("token", {})] })]

/-- Numeric-ID adapter parameters over the session schema. -/
def exParamsNum : AdapterParams :=
  { schema := exSessionSchema, idType := IdType.number }

/-- A plain `user` model (no reference fields). -/
def exUserSchema : BASchema :=
  [("user", { fields := [("email", {}), ("role", {})] })]

/-- Numeric-ID adapter parameters over the user schema. -/
def exParamsUser : AdapterParams :=
  { schema := exUserSchema, idType := IdType.number }

/-- One stored user document with a numeric primary key. -/
def exDocs : List Rec := [[("id", JSValue.num 42), ("email", JSValue.str "a@b")]]

/-- The single-equality point-lookup predicate on `id` (string-typed value). -/
def exWhereIdStr : List WhereCond :=
  [{ field := "id", operator := "eq", value := JSValue.str "42" }]

/-- The same predicate with the value already numeric. -/
def exWhereIdNum : List WhereCond :=
  [{ field := "id", operator := "eq", value := JSValue.num 42 }]

/-- A store whose point lookup always fails with the given error. -/
def exErrStore (e : StoreErr) : Store :=
  { findByID := fun _ => Except.error e, find := fun _ _ _ _ => Except.ok [] }

/-- A host-authored users collection declaring `email` with its own access
rule. -/
def exHostCollection : CollectionCfg :=
  { slug := "users"
    fields := [{ name := some "email", ftype := "email", access := some "adminOnly" }] }

/-- A user table declaring `email` (again) and `twoFactorEnabled`. -/
def exUserTable : ModelSchema :=
  { fields := [("email", { unique := some true }),
               ("twoFactorEnabled", { type := FieldType.boolean })] }

/-! ### Record lemmas -/

theorem getV_setV_self (r : Rec) (k : String) (v : JSValue) :
    getV (setV r k v) k = some v := by
  induction r with
  | nil => simp [setV, getV]
  | cons p rest ih =>
      obtain ⟨k', v'⟩ := p
      by_cases h : k' = k
      · simp [setV, h, getV]
      · simp [setV, h, getV, ih]

theorem getV_setV_ne (r : Rec) (k : String) (v : JSValue) (k' : String)
    (h : k' ≠ k) : getV (setV r k v) k' = getV r k' := by
  have h2 : k ≠ k' := Ne.symm h
  induction r with
  | nil => simp [setV, getV, h2]
  | cons p rest ih =>
      obtain ⟨k0, v0⟩ := p
      by_cases h0 : k0 = k
      · subst h0
        simp [setV, getV, h2]
      · simp only [setV, if_neg h0, getV]
        by_cases h1 : k0 = k'
        · simp [h1]
        · simp [h1, ih]

theorem getV_eq_none_of_not_mem (r : Rec) (k : String)
    (h : k ∉ r.map Prod.fst) : getV r k = none := by
  induction r with
  | nil => rfl
  | cons p rest ih =>
      obtain ⟨k0, v0⟩ := p
      simp only [List.map_cons, List.mem_cons] at h
      push_neg at h
      have h0 : k0 ≠ k := Ne.symm h.1
      simp [getV, h0, ih h.2]

theorem mem_of_getV_eq_some (r : Rec) (k : String) (v : JSValue)
    (h : getV r k = some v) : k ∈ r.map Prod.fst := by
  induction r with
  | nil => simp [getV] at h
  | cons p rest ih =>
      obtain ⟨k0, v0⟩ := p
      by_cases h0 : k0 = k
      · simp [h0]
      · simp only [getV, if_neg h0] at h
        simp [ih h]

theorem keys_setV (r : Rec) (k : String) (v : JSValue) :
    (setV r k v).map Prod.fst =
      if k ∈ r.map Prod.fst then r.map Prod.fst else r.map Prod.fst ++ [k] := by
  induction r with
  | nil => simp [setV]
  | cons p rest ih =>
      obtain ⟨k0, v0⟩ := p
      by_cases h0 : k0 = k
      · simp [setV, h0]
      · have hne : ¬ k = k0 := fun hh => h0 hh.symm
        by_cases hm : k ∈ rest.map Prod.fst
        · simp [setV, h0, ih, hm, hne]
        · simp [setV, h0, ih, hm, hne]

theorem keysUnique_setV (r : Rec) (k : String) (v : JSValue)
    (h : keysUnique r) : keysUnique (setV r k v) := by
  unfold keysUnique at h ⊢
  rw [keys_setV]
  by_cases hm : k ∈ r.map Prod.fst
  · simpa [hm] using h
  · simp only [hm, if_false]
    rw [List.nodup_append]
    refine ⟨h, List.nodup_singleton k, ?_⟩
    intro x hx hx2
    simp only [List.mem_singleton] at hx2
    subst hx2
    exact hm hx

theorem spreadJS_nil (a : Rec) : spreadJS a [] = a := rfl

theorem spreadJS_cons (a : Rec) (p : String × JSValue) (rest : Rec) :
    spreadJS a (p :: rest) = spreadJS (setV a p.1 p.2) rest := rfl

theorem getV_spreadJS_of_none (a b : Rec) (k : String)
    (h : getV b k = none) : getV (spreadJS a b) k = getV a k := by
  induction b generalizing a with
  | nil => rfl
  | cons p rest ih =>
      obtain ⟨k0, v0⟩ := p
      by_cases h0 : k0 = k
      · simp [getV, h0] at h
      · simp only [getV, if_neg h0] at h
        rw [spreadJS_cons]
        rw [ih _ h]
        exact getV_setV_ne a k0 v0 k (fun hh => h0 hh.symm)

theorem getV_spreadJS_of_some (a b : Rec) (k : String) (v : JSValue)
    (hb : keysUnique b) (h : getV b k = some v) :
    getV (spreadJS a b) k = some v := by
  induction b generalizing a with
  | nil => simp [getV] at h
  | cons p rest ih =>
      obtain ⟨k0, v0⟩ := p
      unfold keysUnique at hb
      simp only [List.map_cons, List.nodup_cons] at hb
      by_cases h0 : k0 = k
      · subst h0
        have hv : v0 = v := by simpa [getV] using h
        subst hv
        rw [spreadJS_cons]
        have hrest : getV rest k0 = none :=
          getV_eq_none_of_not_mem rest k0 hb.1
        rw [getV_spreadJS_of_none _ _ _ hrest]
        exact getV_setV_self a k0 v0
      · simp only [getV, if_neg h0] at h
        rw [spreadJS_cons]
        exact ih (setV a k0 v0) hb.2 h

theorem getV_map_vals (g : String → JSValue → JSValue) (r : Rec) (k : String) :
    getV (r.map (fun p => (p.1, g p.1 p.2))) k = (getV r k).map (g k) := by
  induction r with
  | nil => rfl
  | cons p rest ih =>
      obtain ⟨k0, v0⟩ := p
      by_cases h0 : k0 = k
      · subst h0; simp [getV]
      · simp [getV, h0, ih]

/-! ### Loop-step lemmas for the outbound transform -/

theorem restoreRefStep_getV_ne (data acc : Rec) (fk : String) (fd : FieldDef)
    (k : String) (h : k ≠ fk) :
    getV (restoreRefStep data acc fk fd) k = getV acc k := by
  unfold restoreRefStep
  split
  · split
    · exact getV_setV_ne acc fk _ k h
    · rfl
  · rfl

theorem dateConvStep_getV_ne (P : AdapterParams) (acc : Rec) (fk : String)
    (fd : FieldDef) (k : String) (h : k ≠ fk) :
    getV (dateConvStep P acc fk fd) k = getV acc k := by
  unfold dateConvStep
  split
  · split
    · split
      · exact getV_setV_ne acc fk _ k h
      · rfl
    · rfl
  · rfl

theorem restoreStep_getV_ne (P : AdapterParams) (data acc : Rec) (fk : String)
    (fd : FieldDef) (k : String) (h : k ≠ fk) :
    getV (restoreStep P data acc fk fd) k = getV acc k := by
  unfold restoreStep
  rw [dateConvStep_getV_ne _ _ _ _ _ h, restoreRefStep_getV_ne _ _ _ _ _ h]

theorem restoreRefStep_of_present (data acc : Rec) (fk : String) (fd : FieldDef)
    (w : JSValue) (h : getV acc fk = some w) :
    restoreRefStep data acc fk fd = acc := by
  unfold restoreRefStep
  split
  · split
    · simp_all
    · rfl
  · rfl

theorem dateConvStep_of_not_date (P : AdapterParams) (acc : Rec) (fk : String)
    (fd : FieldDef) (h : fd.type ≠ FieldType.date) :
    dateConvStep P acc fk fd = acc := by
  unfold dateConvStep
  rw [if_neg h]

theorem restoreStep_of_present (P : AdapterParams) (data acc : Rec) (fk : String)
    (fd : FieldDef) (w : JSValue) (h : getV acc fk = some w)
    (hd : fd.type ≠ FieldType.date) :
    restoreStep P data acc fk fd = acc := by
  unfold restoreStep
  rw [restoreRefStep_of_present data acc fk fd w h, dateConvStep_of_not_date _ _ _ _ hd]

theorem restoreStep_sets (P : AdapterParams) (data acc : Rec) (fk : String)
    (fd : FieldDef) (v : JSValue) (hnone : getV acc fk = none)
    (href : fd.references.isSome = true)
    (hv : getV data (stripIdSuffix fk) = some v)
    (hd : fd.type ≠ FieldType.date) :
    getV (restoreStep P data acc fk fd) fk = some v := by
  unfold restoreStep
  rw [dateConvStep_of_not_date _ _ _ _ hd]
  unfold restoreRefStep
  rw [if_pos href, hv, hnone]
  exact getV_setV_self acc fk v

/-- The fold of `restoreStep` leaves a key alone when no schema entry
names it. -/
theorem fold_restore_getV_of_not_mem (P : AdapterParams) (data : Rec)
    (l : List (String × FieldDef)) (acc : Rec) (k : String)
    (h : ∀ p ∈ l, p.1 ≠ k) :
    getV (l.foldl (fun acc p => restoreStep P data acc p.1 p.2) acc) k = getV acc k := by
  induction l generalizing acc with
  | nil => rfl
  | cons p rest ih =>
      rw [List.foldl_cons]
      rw [ih _ (fun q hq => h q (List.mem_cons_of_mem p hq))]
      exact restoreStep_getV_ne P data acc p.1 p.2 k
        (fun hh => h p (List.mem_cons_self p rest) hh.symm)

/-- The fold of `restoreStep` keeps a key's present value as long as no
schema entry of that key is date-typed. -/
theorem fold_restore_getV_of_present (P : AdapterParams) (data : Rec)
    (l : List (String × FieldDef)) (acc : Rec) (k : String) (v : JSValue)
    (h : getV acc k = some v)
    (hd : ∀ p ∈ l, p.1 = k → p.2.type ≠ FieldType.date) :
    getV (l.foldl (fun acc p => restoreStep P data acc p.1 p.2) acc) k = some v := by
  induction l generalizing acc with
  | nil => exact h
  | cons p rest ih =>
      rw [List.foldl_cons]
      by_cases h0 : p.1 = k
      · have hstep : restoreStep P data acc p.1 p.2 = acc := by
          refine restoreStep_of_present P data acc p.1 p.2 v ?_ ?_
          · rw [h0]; exact h
          · exact hd p (List.mem_cons_self p rest) h0
        rw [hstep]
        exact ih acc h (fun q hq => hd q (List.mem_cons_of_mem p hq))
      · have hstep : getV (restoreStep P data acc p.1 p.2) k = some v := by
          rw [restoreStep_getV_ne P data acc p.1 p.2 k (fun hh => h0 hh.symm)]
          exact h
        -- recurse with the (possibly changed) accumulator
        have := ih (restoreStep P data acc p.1 p.2) hstep
          (fun q hq => hd q (List.mem_cons_of_mem p hq))
        exact this

/-! ### Key-uniqueness preservation through the outbound transform -/

theorem keysUnique_restoreRefStep (data acc : Rec) (fk : String) (fd : FieldDef)
    (h : keysUnique acc) : keysUnique (restoreRefStep data acc fk fd) := by
  unfold restoreRefStep
  split
  · split
    · exact keysUnique_setV acc fk _ h
    · exact h
  · exact h

theorem keysUnique_dateConvStep (P : AdapterParams) (acc : Rec) (fk : String)
    (fd : FieldDef) (h : keysUnique acc) : keysUnique (dateConvStep P acc fk fd) := by
  unfold dateConvStep
  split
  · split
    · split
      · exact keysUnique_setV acc fk _ h
      · exact h
    · exact h
  · exact h

theorem keysUnique_restoreStep (P : AdapterParams) (data acc : Rec) (fk : String)
    (fd : FieldDef) (h : keysUnique acc) : keysUnique (restoreStep P data acc fk fd) :=
  keysUnique_dateConvStep P _ fk fd (keysUnique_restoreRefStep data acc fk fd h)

theorem keysUnique_fold_restore (P : AdapterParams) (data : Rec)
    (l : List (String × FieldDef)) (acc : Rec) (h : keysUnique acc) :
    keysUnique (l.foldl (fun acc p => restoreStep P data acc p.1 p.2) acc) := by
  induction l generalizing acc with
  | nil => exact h
  | cons p rest ih =>
      rw [List.foldl_cons]
      exact ih _ (keysUnique_restoreStep P data acc p.1 p.2 h)

theorem keys_convertIdFields (allow block : List String) (r : Rec) :
    (convertIdFields allow block r).map Prod.fst = r.map Prod.fst := by
  unfold convertIdFields
  rw [List.map_map]
  rfl

theorem keysUnique_convertIdFields (allow block : List String) (r : Rec)
    (h : keysUnique r) : keysUnique (convertIdFields allow block r) := by
  unfold keysUnique
  rw [keys_convertIdFields]
  exact h

theorem keysUnique_transformDataFromPayload (P : AdapterParams) (model : String)
    (r : Rec) (h : keysUnique r) : keysUnique (transformDataFromPayload P model r) := by
  unfold transformDataFromPayload
  split
  · exact h
  · split
    · exact keysUnique_convertIdFields _ _ _ (keysUnique_fold_restore P r _ r h)
    · exact keysUnique_fold_restore P r _ r h

theorem getV_convertIdFields (allow block : List String) (r : Rec) (k : String) :
    getV (convertIdFields allow block r) k = (getV r k).map (numConvVal allow block k) :=
  getV_map_vals (numConvVal allow block) r k

/-! ### String lemmas -/

theorem listStarts_length {p l : List Char} (h : listStarts p l = true) :
    p.length ≤ l.length := by
  induction p generalizing l with
  | nil => simp
  | cons a as ih =>
      cases l with
      | nil => simp [listStarts] at h
      | cons b bs =>
          simp only [listStarts] at h
          split at h
          · simpa using ih h
          · cases h

theorem strEndsWith_length {s post : String} (h : strEndsWith s post = true) :
    post.data.length ≤ s.data.length := by
  unfold strEndsWith at h
  have := listStarts_length h
  simpa using this

theorem strDropRight_data (s : String) (n : Nat) :
    (strDropRight s n).data = s.data.take (s.data.length - n) := rfl

/-- A strippable suffix really shortens the name. -/
theorem stripIdSuffix_ne (f : String) (h : hasIdSuffix f = true) :
    stripIdSuffix f ≠ f := by
  unfold hasIdSuffix at h
  intro heq
  have hlen : (stripIdSuffix f).data.length = f.data.length := by rw [heq]
  unfold stripIdSuffix at hlen
  by_cases h3 : strEndsWith f "_id" = true
  · have hge : 3 ≤ f.data.length := by
      have := strEndsWith_length h3
      simpa using this
    rw [if_pos h3] at hlen
    rw [strDropRight_data, List.length_take] at hlen
    omega
  · have h2 : strEndsWith f "Id" = true := by
      rcases Bool.or_eq_true_iff.mp h with h' | h'
      · exact h'
      · exact absurd h' h3
    have hge : 2 ≤ f.data.length := by
      have := strEndsWith_length h2
      simpa using this
    rw [if_neg h3, if_pos h2] at hlen
    rw [strDropRight_data, List.length_take] at hlen
    omega

theorem takeWhile_all_digits {l : List Char} (h : l.all (·.isDigit) = true) :
    l.takeWhile (·.isDigit) = l := by
  induction l with
  | nil => rfl
  | cons c cs ih =>
      simp only [List.all_cons, Bool.and_eq_true] at h
      simp [List.takeWhile_cons, h.1, ih h.2]

/-- A pure-digit string always survives JS `parseInt`. -/
theorem parseIntJS_isSome_of_isDigits (s : String) (h : isDigits s = true) :
    ∃ n : Int, parseIntJS s = some n := by
  unfold isDigits at h
  rw [Bool.and_eq_true] at h
  obtain ⟨hne, hall⟩ := h
  rcases hd : s.data with _ | ⟨c, cs⟩
  · rw [hd] at hne; simp at hne
  · have hcdig : c.isDigit = true := by
      rw [hd] at hall
      simp only [List.all_cons, Bool.and_eq_true] at hall
      exact hall.1
    have hcw : isWhitespaceChar c = false := by
      unfold isWhitespaceChar
      by_cases h1 : c = ' '
      · subst h1; simp at hcdig
      · by_cases h2 : c = '\t'
        · subst h2; simp at hcdig
        · by_cases h3 : c = '\n'
          · subst h3; simp at hcdig
          · by_cases h4 : c = '\r'
            · subst h4; simp at hcdig
            · simp [h1, h2, h3, h4]
    have hdrop : s.data.dropWhile isWhitespaceChar = c :: cs := by
      rw [hd, List.dropWhile_cons, hcw]
      simp
    have hcm : c ≠ '-' := by
      intro hc; subst hc; simp [Char.isDigit] at hcdig
    have hcp : c ≠ '+' := by
      intro hc; subst hc; simp [Char.isDigit] at hcdig
    have hval : digitsPrefixVal (c :: cs) = some (charDigitsVal (c :: cs)) := by
      unfold digitsPrefixVal
      have : (c :: cs).takeWhile (·.isDigit) = c :: cs := by
        apply takeWhile_all_digits
        rw [hd] at hall
        exact hall
      rw [this]
      simp
    refine ⟨(charDigitsVal (c :: cs) : Int), ?_⟩
    unfold parseIntJS
    rw [hdrop]
    split
    · rename_i rest heq
      injection heq with h1 h2
      exact absurd h1 hcm
    · rename_i rest heq
      injection heq with h1 h2
      exact absurd h1 hcp
    · rw [hval]
      rfl

/-! ### Claim theorems -/

/-- C6: in numeric ID mode the ID coercion `convertId` is idempotent — an
already-integer value passes through unchanged (so applying it twice
equals applying it once), and a string that does not parse as a number
(`parseInt` gives `NaN`) is returned unchanged. -/
theorem C6_convertId_idempotent :
    (∀ n : Int, convertId IdType.number (JSValue.num n) = JSValue.num n) ∧
    (∀ n : Int,
      convertId IdType.number (convertId IdType.number (JSValue.num n)) =
        convertId IdType.number (JSValue.num n)) ∧
    (∀ s : String, parseIntJS s = none →
      convertId IdType.number (JSValue.str s) = JSValue.str s) := by
  refine ⟨fun n => rfl, fun n => rfl, fun s h => ?_⟩
  simp [convertId, h]

/-- C5: `findMany` issues page `floor(offset / limit) + 1` to the store
(`findManyPage` is exactly the `page:` argument of the `payload.find`
call), with the limit defaulting to 100 when absent and page 1 when the
offset is absent or zero; no other adjustment is made, so offsets in the
same `limit`-quotient class are indistinguishable (lossy). -/
theorem C5_findMany_page :
    (∀ l o : Nat, 0 < l → findManyPage (some l) (some o) = o / l + 1) ∧
    (∀ o : Nat, findManyPage none (some o) = o / 100 + 1) ∧
    (∀ l : Option Nat, findManyPage l none = 1) ∧
    (∀ l : Option Nat, findManyPage l (some 0) = 1) ∧
    (∀ l o₁ o₂ : Nat, 0 < l → o₁ / l = o₂ / l →
      findManyPage (some l) (some o₁) = findManyPage (some l) (some o₂)) := by
  have hbase : ∀ l o : Nat, 0 < l → findManyPage (some l) (some o) = o / l + 1 := by
    intro l o hl
    by_cases ho : o = 0
    · subst ho
      simp [findManyPage]
    · simp [findManyPage, ho]
  refine ⟨hbase, ?_, ?_, ?_, ?_⟩
  · intro o
    by_cases ho : o = 0
    · subst ho; simp [findManyPage]
    · simp [findManyPage, ho]
  · intro l; rfl
  · intro l; rfl
  · intro l o₁ o₂ hl hq
    rw [hbase l o₁ hl, hbase l o₂ hl, hq]

/-- C9: the first-user-elevation hook — a zero authorization-bypassing
count forces the configured admin role over any caller-supplied value; a
nonzero count keeps the caller's (non-null) role and falls back to the
configured default when none was supplied; and a failed count degrades to
the same caller-or-default assignment and still returns the record
(`setV` of the role field — the create proceeds). -/
theorem C9_first_user_elevation (opts : FirstUserAdminOptions) (data : Rec)
    (n : Nat) (e : StoreErr) :
    (getV (firstUserAdminHook opts data "create" (Except.ok 0))
        (opts.roleField.getD "role") =
      some (JSValue.str (opts.adminRole.getD "admin"))) ∧
    (∀ v : JSValue, getV data (opts.roleField.getD "role") = some v →
      v ≠ JSValue.null →
      getV (firstUserAdminHook opts data "create" (Except.ok (n + 1)))
          (opts.roleField.getD "role") = some v) ∧
    (getV data (opts.roleField.getD "role") = none →
      getV (firstUserAdminHook opts data "create" (Except.ok (n + 1)))
          (opts.roleField.getD "role") =
        some (JSValue.str (opts.defaultRole.getD "user"))) ∧
    (firstUserAdminHook opts data "create" (Except.error e) =
      setV data (opts.roleField.getD "role")
        (jsCoalesce (getV data (opts.roleField.getD "role"))
          (JSValue.str (opts.defaultRole.getD "user")))) ∧
    (∀ v : JSValue, getV data (opts.roleField.getD "role") = some v →
      v ≠ JSValue.null →
      getV (firstUserAdminHook opts data "create" (Except.error e))
          (opts.roleField.getD "role") = some v) ∧
    (getV data (opts.roleField.getD "role") = none →
      getV (firstUserAdminHook opts data "create" (Except.error e))
          (opts.roleField.getD "role") =
        some (JSValue.str (opts.defaultRole.getD "user"))) := by
  have hcoalesce : ∀ v : JSValue, v ≠ JSValue.null →
      ∀ d : JSValue, jsCoalesce (some v) d = v := by
    intro v hv d
    cases v <;> first | rfl | exact absurd rfl hv
  have hok0 : firstUserAdminHook opts data "create" (Except.ok 0) =
      setV data (opts.roleField.getD "role")
        (JSValue.str (opts.adminRole.getD "admin")) := by
    simp [firstUserAdminHook]
  have hokS : firstUserAdminHook opts data "create" (Except.ok (n + 1)) =
      setV data (opts.roleField.getD "role")
        (jsCoalesce (getV data (opts.roleField.getD "role"))
          (JSValue.str (opts.defaultRole.getD "user"))) := by
    simp [firstUserAdminHook]
  have herr : firstUserAdminHook opts data "create" (Except.error e) =
      setV data (opts.roleField.getD "role")
        (jsCoalesce (getV data (opts.roleField.getD "role"))
          (JSValue.str (opts.defaultRole.getD "user"))) := by
    simp [firstUserAdminHook]
  refine ⟨?_, ?_, ?_, herr, ?_, ?_⟩
  · rw [hok0]
    exact getV_setV_self data _ _
  · intro v hv hnn
    rw [hokS, hv, hcoalesce v hnn]
    exact getV_setV_self data _ v
  · intro hnone
    rw [hokS, hnone]
    exact getV_setV_self data _ _
  · intro v hv hnn
    rw [herr, hv, hcoalesce v hnn]
    exact getV_setV_self data _ v
  · intro hnone
    rw [herr, hnone]
    exact getV_setV_self data _ _

/-- C4: on `findOne`'s point-lookup path (single `id`-equality predicate),
a store error carrying status 404 is normalized to a null result — no
exception — while any other store error is re-thrown unchanged. -/
theorem C4_findOne_not_found (P : AdapterParams) (store : Store) (model : String)
    (w : List WhereCond) (idv : JSValue) (e : StoreErr)
    (hpoint : extractSingleId w = some idv)
    (herr : store.findByID (convertId P.idType idv) = Except.error e) :
    (e.status = some 404 → findOne P store model w = Except.ok none) ∧
    (e.status ≠ some 404 → findOne P store model w = Except.error e) := by
  constructor <;> intro h <;> simp [findOne, hpoint, herr, h]

/-- C4 witness: a 404-signalling store makes the point lookup return a
null result rather than raising. -/
theorem C4_findOne_not_found_witness :
    findOne exParamsUser (exErrStore { status := some 404 }) "user" exWhereIdNum =
      Except.ok none :=
  (C4_findOne_not_found exParamsUser (exErrStore { status := some 404 }) "user"
    exWhereIdNum (JSValue.num 42) { status := some 404 } rfl rfl).1 rfl

/-- Iota-reduction of the numeric-ID pass on a string value. -/
theorem numConvVal_str (allow block : List String) (k s : String) :
    numConvVal allow block k (JSValue.str s) =
      (if ((matchesIdHeuristic k || allow.contains k) && !(block.contains k)) = true then
        if isDigits s = true then
          match parseIntJS s with
          | some n => JSValue.num n
          | none => JSValue.str s
        else JSValue.str s
      else JSValue.str s) := rfl

/-- C10: in numeric ID mode the outbound numeric-ID pass
(`convertIdFields`, the loop of `transformDataFromPayload` at lines
400–420) converts a field's string value to a number only when it is a
pure-digit string, the name matches the `Id`/`_id` suffix heuristic or the
allow-list, and the name is not block-listed; a name in both lists is
never converted (block-list wins), the bare name `id` does not match the
heuristic, and conversion does occur when all conditions hold; the final
conjunct ties the pass to `transformDataFromPayload` itself. -/
theorem C10_id_conversion_conditions :
    matchesIdHeuristic "id" = false ∧
    (∀ (allow block : List String) (r : Rec) (k s : String) (m : Int),
      getV r k = some (JSValue.str s) →
      getV (convertIdFields allow block r) k = some (JSValue.num m) →
      isDigits s = true ∧
        (matchesIdHeuristic k = true ∨ allow.contains k = true) ∧
        block.contains k = false) ∧
    (∀ (allow block : List String) (r : Rec) (k : String) (v : JSValue),
      allow.contains k = true → block.contains k = true →
      getV r k = some v → getV (convertIdFields allow block r) k = some v) ∧
    (∀ (allow block : List String) (r : Rec) (k s : String),
      getV r k = some (JSValue.str s) → isDigits s = true →
      (matchesIdHeuristic k = true ∨ allow.contains k = true) →
      block.contains k = false →
      ∃ m : Int, getV (convertIdFields allow block r) k = some (JSValue.num m)) ∧
    (∀ (P : AdapterParams) (model : String) (data : Rec) (ms : ModelSchema),
      getModelSchema P.schema model = some ms → ms.fields = [] →
      P.idType = IdType.number →
      transformDataFromPayload P model data =
        convertIdFields P.idFieldsAllowlist P.idFieldsBlocklist data) := by
  refine ⟨by decide, ?_, ?_, ?_, ?_⟩
  · intro allow block r k s m h1 h2
    rw [getV_convertIdFields, h1] at h2
    simp only [Option.map_some', numConvVal_str] at h2
    by_cases hcond :
        ((matchesIdHeuristic k || allow.contains k) && !(block.contains k)) = true
    · rw [if_pos hcond] at h2
      by_cases hdig : isDigits s = true
      · refine ⟨hdig, ?_, ?_⟩
        · have h3 := (Bool.and_eq_true_iff.mp hcond).1
          rcases Bool.or_eq_true_iff.mp h3 with h' | h'
          · exact Or.inl h'
          · exact Or.inr h'
        · have h4 := (Bool.and_eq_true_iff.mp hcond).2
          simpa using h4
      · rw [if_neg hdig] at h2
        exact absurd h2 (by simp)
    · rw [if_neg hcond] at h2
      exact absurd h2 (by simp)
  · intro allow block r k v hallow hblock h
    rw [getV_convertIdFields, h, Option.map_some']
    have hv : numConvVal allow block k v = v := by
      cases v
      case str s =>
        have hmem : k ∈ block := by simpa using hblock
        simp [numConvVal_str, hmem]
      all_goals rfl
    rw [hv]
  · intro allow block r k s h1 hdig hor hblock
    obtain ⟨n, hn⟩ := parseIntJS_isSome_of_isDigits s hdig
    refine ⟨n, ?_⟩
    rw [getV_convertIdFields, h1, Option.map_some', numConvVal_str]
    have hcond :
        ((matchesIdHeuristic k || allow.contains k) && !(block.contains k)) = true := by
      have h1b : (matchesIdHeuristic k || allow.contains k) = true := by
        rcases hor with h' | h'
        · simp [h']
        · have hmem : k ∈ allow := by simpa using h'
          simp [hmem]
      have h2b : (!(block.contains k)) = true := by
        rw [hblock]; rfl
      rw [Bool.and_eq_true_iff]
      exact ⟨h1b, h2b⟩
    rw [if_pos hcond, if_pos hdig, hn]
  · intro P model data ms hms hfields hP
    simp [transformDataFromPayload, hms, hfields, hP]

/-- A core model whose key differs from `m` contributes no warning
mentioning `m`. -/
theorem countP_pluralWarnFor_ne (k : String) (o : Option String) (m : String)
    (h : k ≠ m) :
    (pluralWarnFor (k, o)).countP (fun w => warningMentions w m) = 0 := by
  rcases o with _ | mn
  · rfl
  · unfold pluralWarnFor
    split
    · simp [List.countP_cons, warningMentions, h]
    · rfl

/-- The offending core model contributes exactly one warning mentioning
itself. -/
theorem countP_pluralWarnFor_self (k mn m : String) (hk : k = m)
    (h : strEndsWith mn "s" = true) :
    (pluralWarnFor (k, some mn)).countP (fun w => warningMentions w m) = 1 := by
  subst hk
  unfold pluralWarnFor
  simp [h, List.countP_cons, warningMentions]

/-- C7: when a core model's `modelName` override is already plural (ends
in `s`) while pluralization is (always) enabled, construction logs exactly
one warning mentioning that model, does not throw, and still returns the
usable factory configuration (`payload-adapter`, `usePlural: true`). -/
theorem C7_plural_warning (idTypeCfg : Option IdType) (dbg : Bool)
    (opts : BAOptions) (m mn : String)
    (hm : (m, some mn) ∈ coreModelEntries opts)
    (hp : strEndsWith mn "s" = true) :
    (payloadAdapterConstruct idTypeCfg dbg opts).1.countP
        (fun w => warningMentions w m) = 1 ∧
    (payloadAdapterConstruct idTypeCfg dbg opts).2.adapterId = "payload-adapter" ∧
    (payloadAdapterConstruct idTypeCfg dbg opts).2.usePlural = true := by
  refine ⟨?_, rfl, rfl⟩
  show (constructionWarnings idTypeCfg opts).countP (fun w => warningMentions w m) = 1
  unfold constructionWarnings
  rw [List.countP_append]
  have hserial :
      (if (idTypeCfg.getD (detectIdType opts)) = IdType.number ∧
          opts.generateId ≠ none ∧
          opts.generateId ≠ some GenerateIdSetting.serial
       then [AdapterWarning.serialIdMismatch] else []).countP
        (fun w => warningMentions w m) = 0 := by
    split
    · simp [List.countP_cons, warningMentions]
    · rfl
  rw [hserial]
  simp only [coreModelEntries, List.foldr_cons, List.foldr_nil, List.append_nil]
  rw [List.countP_append, List.countP_append, List.countP_append]
  simp only [coreModelEntries, List.mem_cons, List.not_mem_nil, or_false,
    Prod.mk.injEq] at hm
  rcases hm with ⟨rfl, h2⟩ | ⟨rfl, h2⟩ | ⟨rfl, h2⟩ | ⟨rfl, h2⟩
  · rw [← h2, countP_pluralWarnFor_self "user" mn "user" rfl hp,
      countP_pluralWarnFor_ne "session" opts.sessionModelName "user" (by decide),
      countP_pluralWarnFor_ne "account" opts.accountModelName "user" (by decide),
      countP_pluralWarnFor_ne "verification" opts.verificationModelName "user" (by decide)]
  · rw [← h2, countP_pluralWarnFor_self "session" mn "session" rfl hp,
      countP_pluralWarnFor_ne "user" opts.userModelName "session" (by decide),
      countP_pluralWarnFor_ne "account" opts.accountModelName "session" (by decide),
      countP_pluralWarnFor_ne "verification" opts.verificationModelName "session" (by decide)]
  · rw [← h2, countP_pluralWarnFor_self "account" mn "account" rfl hp,
      countP_pluralWarnFor_ne "user" opts.userModelName "account" (by decide),
      countP_pluralWarnFor_ne "session" opts.sessionModelName "account" (by decide),
      countP_pluralWarnFor_ne "verification" opts.verificationModelName "account" (by decide)]
  · rw [← h2, countP_pluralWarnFor_self "verification" mn "verification" rfl hp,
      countP_pluralWarnFor_ne "user" opts.userModelName "verification" (by decide),
      countP_pluralWarnFor_ne "session" opts.sessionModelName "verification" (by decide),
      countP_pluralWarnFor_ne "account" opts.accountModelName "verification" (by decide)]

/-- C7 witness: a `session` override of `"sessions"` yields exactly one
warning naming `session`, and the factory configuration is still built. -/
theorem C7_plural_warning_witness :
    (payloadAdapterConstruct none false
        { sessionModelName := some "sessions" }).1.countP
      (fun w => warningMentions w "session") = 1 :=
  (C7_plural_warning none false { sessionModelName := some "sessions" }
    "session" "sessions" (by decide) (by decide)).1

/-- C2: a successful `create` returns the outbound-translated store result
spread **over** the caller's input: every key the store result (after
outbound translation) carries ends up with the store's value — hooks that
mutate data (e.g. first-user admin elevation) win over the caller — and
keys the store result lacks keep the caller's value. -/
theorem C2_create_precedence (P : AdapterParams)
    (storeCreate : Rec → Except StoreErr Rec) (model : String)
    (data res : Rec)
    (hok : storeCreate (transformDataForPayload P model data) = Except.ok res)
    (hres : keysUnique res) :
    create P storeCreate model data =
      Except.ok (spreadJS data (transformDataFromPayload P model res)) ∧
    (∀ (k : String) (v : JSValue),
      getV (transformDataFromPayload P model res) k = some v →
      getV (spreadJS data (transformDataFromPayload P model res)) k = some v) ∧
    (∀ k : String, getV (transformDataFromPayload P model res) k = none →
      getV (spreadJS data (transformDataFromPayload P model res)) k = getV data k) := by
  have huniq := keysUnique_transformDataFromPayload P model res hres
  refine ⟨?_, ?_, ?_⟩
  · unfold create
    rw [hok]
  · intro k v h
    exact getV_spreadJS_of_some data _ k v huniq h
  · intro k h
    exact getV_spreadJS_of_none data _ k h

/-- C2 witness: input role `user`, store-persisted role `admin` — `create`
returns `admin`. -/
theorem C2_create_precedence_witness :
    getV (spreadJS [("role", JSValue.str "user")]
        (transformDataFromPayload exParamsUser "user"
          [("id", JSValue.num 1), ("role", JSValue.str "admin")])) "role" =
      some (JSValue.str "admin") :=
  (C2_create_precedence exParamsUser
      (fun _ => Except.ok [("id", JSValue.num 1), ("role", JSValue.str "admin")])
      "user" [("role", JSValue.str "user")]
      [("id", JSValue.num 1), ("role", JSValue.str "admin")] rfl
      (by unfold keysUnique; decide)).2.1
    "role" (JSValue.str "admin") (by decide)

/-- Both branches of the generated-field builder name the field by the
translated schema field name. -/
theorem buildMissingField_name (mk : String) (up cjwt : Bool) (fk : String)
    (fd : FieldDef) (pfn : String) :
    (buildMissingField mk up cjwt fk fd pfn).name = some pfn := by
  unfold buildMissingField
  split <;> split <;> rfl

/-- Every field the augmentation loop collects is named by a translated
schema field name the host collection does not already declare. -/
theorem missingFieldsList_names (existing : List String) (modelKey : String)
    (up cjwt : Bool) (l : List (String × FieldDef)) :
    ∀ f ∈ missingFieldsList existing modelKey up cjwt l,
      ∃ nm : String, f.name = some nm ∧ existing.contains nm = false := by
  induction l with
  | nil => intro f hf; cases hf
  | cons p rest ih =>
      intro f hf
      obtain ⟨fk, fd⟩ := p
      unfold missingFieldsList at hf
      split at hf
      · exact ih f hf
      · split at hf
        · exact ih f hf
        · rename_i hskip hmem
          rcases List.mem_cons.mp hf with rfl | hf'
          · exact ⟨_, buildMissingField_name modelKey up cjwt fk fd _,
              by simpa using hmem⟩
          · exact ih f hf'

/-- C8: `augmentCollectionWithMissingFields` keeps the host collection's
slug, access rules and every declared field unchanged and in place (the
original field list is literally a prefix of the result), and every
appended field's name is absent from the host's declared field names — in
particular a schema field sharing a (translated) name with a host field
appends nothing. -/
theorem C8_augment_nondestructive (c : CollectionCfg) (t : ModelSchema)
    (up : Bool) (mk : String) (cjwt : Bool) :
    (augmentCollectionWithMissingFields c t up mk cjwt).slug = c.slug ∧
    (augmentCollectionWithMissingFields c t up mk cjwt).access = c.access ∧
    (augmentCollectionWithMissingFields c t up mk cjwt).fields.take
        c.fields.length = c.fields ∧
    ∀ f ∈ (augmentCollectionWithMissingFields c t up mk cjwt).fields.drop
        c.fields.length,
      ∃ nm : String, f.name = some nm ∧
        (getExistingFieldNames c.fields).contains nm = false := by
  have hchar : augmentCollectionWithMissingFields c t up mk cjwt =
      (if (missingFieldsList (getExistingFieldNames c.fields) mk up cjwt
            t.fields).isEmpty then c
       else { c with fields := c.fields ++
          missingFieldsList (getExistingFieldNames c.fields) mk up cjwt t.fields }) :=
    rfl
  rw [hchar]
  split
  · refine ⟨rfl, rfl, List.take_length c.fields, ?_⟩
    intro f hf
    rw [List.drop_length] at hf
    cases hf
  · refine ⟨rfl, rfl, ?_, ?_⟩
    · exact List.take_left c.fields _
    · intro f hf
      have hf' : f ∈ (c.fields ++
          missingFieldsList (getExistingFieldNames c.fields) mk up cjwt
            t.fields).drop c.fields.length := hf
      rw [List.drop_left] at hf'
      exact missingFieldsList_names (getExistingFieldNames c.fields) mk up cjwt
        t.fields f hf'

/-! ### Lemmas for the point-lookup equivalence -/

theorem filter_head?_eq_find? {α : Type} (p : α → Bool) (l : List α) :
    (l.filter p).head? = l.find? p := by
  induction l with
  | nil => rfl
  | cons a rest ih =>
      by_cases h : p a = true
      · simp [List.filter_cons, List.find?_cons, h]
      · simp only [List.filter_cons, List.find?_cons, h]
        simp only [Bool.false_eq_true, if_false]
        exact ih

theorem take_one_head? {α : Type} (l : List α) : (l.take 1).head? = l.head? := by
  cases l <;> rfl

theorem filter_eq_nil_of_find?_eq_none {α : Type} (p : α → Bool) (l : List α)
    (h : l.find? p = none) : l.filter p = [] := by
  induction l with
  | nil => rfl
  | cons a rest ih =>
      by_cases hp : p a = true
      · rw [List.find?_cons_of_pos _ hp] at h
        cases h
      · rw [List.find?_cons_of_neg _ hp] at h
        simp [List.filter_cons, hp, ih h]

/-- C3 counterexample: numeric ID mode, a store holding one document with
numeric primary key 42, and the predicate value the *string* `"42"`:
`findOne`'s point path coerces the ID and finds the document, while
`findMany` with the same predicate and limit 1 filters with the uncoerced
value and returns nothing — the two paths differ. -/
theorem C3_counterexample :
    findOne exParamsUser (fixtureStore exDocs) "user" exWhereIdStr =
      Except.ok (some [("id", JSValue.num 42), ("email", JSValue.str "a@b")]) ∧
    findMany exParamsUser (fixtureStore exDocs) "user" (some exWhereIdStr)
        (some 1) none none = Except.ok [] ∧
    findOne exParamsUser (fixtureStore exDocs) "user" exWhereIdStr ≠
      (findMany exParamsUser (fixtureStore exDocs) "user" (some exWhereIdStr)
        (some 1) none none).map List.head? := by
  refine ⟨rfl, rfl, ?_⟩
  intro h
  have h1 : findOne exParamsUser (fixtureStore exDocs) "user" exWhereIdStr =
      Except.ok (some [("id", JSValue.num 42), ("email", JSValue.str "a@b")]) := rfl
  have h2 : (findMany exParamsUser (fixtureStore exDocs) "user" (some exWhereIdStr)
      (some 1) none none).map List.head? =
        (Except.ok none : Except StoreErr (Option Rec)) := rfl
  rw [h1, h2] at h
  injection h with h3
  cases h3

/-- C3 (amended): `findOne` with a single `id`-equality predicate and
`findMany` with the same predicate and limit 1 return the same logical
document over any fixture store, **provided** the predicate value is
already in the store's native ID representation (`convertId` fixes it) —
the point path additionally coerces string IDs that the list path's filter
does not, which is exactly what the counterexample exploits — and `id` is
translated to itself. -/
theorem C3_point_lookup_equiv_amended (P : AdapterParams) (docs : List Rec)
    (model : String) (v : JSValue)
    (hv : extractSingleId [{ field := "id", operator := "eq", value := v }] = some v)
    (hconv : convertId P.idType v = v)
    (hname : getPayloadFieldName P.schema model "id" = "id") :
    findOne P (fixtureStore docs) model
        [{ field := "id", operator := "eq", value := v }] =
      (findMany P (fixtureStore docs) model
        (some [{ field := "id", operator := "eq", value := v }])
        (some 1) none none).map List.head? := by
  have hpw : convertWhereToPayload P.schema model
      [{ field := "id", operator := "eq", value := v }] =
        PWhere.single "id" ("equals", v) := by
    simp [convertWhereToPayload, hname, convertOperator]
  have hpred : ∀ d : Rec,
      evalPWhere (PWhere.single "id" ("equals", v)) d =
        decide (getV d "id" = some v) := by
    intro d
    simp [evalPWhere, evalCond]
  simp only [findOne, hv, hconv, findMany, hpw, findManyPage, fixtureStore]
  cases hfind : docs.find? (fun d => decide (getV d "id" = some v)) with
  | some d =>
      have hfilter : (docs.filter (fun d =>
          evalPWhere (PWhere.single "id" ("equals", v)) d)).head? = some d := by
        rw [funext hpred, filter_head?_eq_find?, hfind]
      simp only [Option.getD_some, Nat.sub_self, Nat.zero_mul, List.drop_zero,
        Except.map]
      rw [List.head?_map, take_one_head?, hfilter]
      rfl
  | none =>
      have hfilter : docs.filter (fun d =>
          evalPWhere (PWhere.single "id" ("equals", v)) d) = [] := by
        rw [funext hpred]
        exact filter_eq_nil_of_find?_eq_none _ docs hfind
      simp only [hfilter, List.take_nil, List.drop_nil, List.map_nil]
      rfl

/-- C3 witness: with the predicate value already numeric the two paths
agree on the same fixture. -/
theorem C3_point_lookup_equiv_amended_witness :
    findOne exParamsUser (fixtureStore exDocs) "user" exWhereIdNum =
      (findMany exParamsUser (fixtureStore exDocs) "user" (some exWhereIdNum)
        (some 1) none none).map List.head? :=
  C3_point_lookup_equiv_amended exParamsUser exDocs "user" (JSValue.num 42)
    rfl rfl rfl

/-! ### Lemmas for the round-trip naming claim -/

theorem lookupAssoc_eq_of_mem_nodup {α : Type} (l : List (String × α))
    (k : String) (a : α) (hnd : (l.map Prod.fst).Nodup) (hmem : (k, a) ∈ l) :
    lookupAssoc l k = some a := by
  induction l with
  | nil => cases hmem
  | cons p rest ih =>
      obtain ⟨k0, a0⟩ := p
      simp only [List.map_cons, List.nodup_cons] at hnd
      rcases List.mem_cons.mp hmem with heq | hmem'
      · injection heq with h1 h2
        subst h1; subst h2
        simp [lookupAssoc]
      · have hk : k0 ≠ k := by
          intro hh
          subst hh
          exact hnd.1 (List.mem_map_of_mem Prod.fst hmem')
        simp only [lookupAssoc, if_neg hk]
        exact ih hnd.2 hmem'

/-- C1 counterexample: session's reference field `userId` in numeric ID
mode; the store returns the stripped key `user` holding the *string*
`"42"`. The outbound transform restores `userId` but the numeric-ID
heuristic then parses only the suffixed copy, so the two keys end up with
different values — refuting "produces both keys with the same value". -/
theorem C1_counterexample :
    getV (transformDataFromPayload exParamsNum "session"
        [("user", JSValue.str "42")]) "user" = some (JSValue.str "42") ∧
    getV (transformDataFromPayload exParamsNum "session"
        [("user", JSValue.str "42")]) "userId" = some (JSValue.num 42) ∧
    getV (transformDataFromPayload exParamsNum "session"
        [("user", JSValue.str "42")]) "user" ≠
      getV (transformDataFromPayload exParamsNum "session"
        [("user", JSValue.str "42")]) "userId" := by
  refine ⟨by decide, by decide, by decide⟩

/-- C1 (amended): for a reference field `f` with an `Id`/`_id` suffix (no
storage rename, not date-typed, no date-typed field named like its
stripped key), the inbound transform writes the (ID-coerced) value under
the suffix-stripped key, and the outbound transform applied to a record
holding the stripped key (and lacking `f`) restores the suffixed key `f`
alongside it — both keys then hold the stored value up to the numeric-ID
pass, which agrees on the two keys exactly when the value is not a
pure-digit string or the mode is text (the counterexample's caveat). -/
theorem C1_roundtrip_amended (P : AdapterParams) (model : String)
    (ms : ModelSchema) (f : String) (fd : FieldDef) (r : Rec) (v : JSValue)
    (hms : getModelSchema P.schema model = some ms)
    (hnd : (ms.fields.map Prod.fst).Nodup)
    (hmem : (f, fd) ∈ ms.fields)
    (href : fd.references.isSome = true)
    (hsuf : hasIdSuffix f = true)
    (hov : fd.fieldName = none)
    (hfdt : fd.type ≠ FieldType.date)
    (hdate : ∀ p ∈ ms.fields, p.1 = stripIdSuffix f → p.2.type ≠ FieldType.date)
    (hr : getV r (stripIdSuffix f) = some v)
    (hrf : getV r f = none) :
    (∀ w : JSValue, transformDataForPayload P model [(f, w)] =
      [(stripIdSuffix f,
        if w = JSValue.null then w else coerceRefValue P.idType w)]) ∧
    getV (transformDataFromPayload P model r) f =
      some (if P.idType = IdType.number then
        numConvVal P.idFieldsAllowlist P.idFieldsBlocklist f v else v) ∧
    getV (transformDataFromPayload P model r) (stripIdSuffix f) =
      some (if P.idType = IdType.number then
        numConvVal P.idFieldsAllowlist P.idFieldsBlocklist (stripIdSuffix f) v
        else v) ∧
    ((P.idType = IdType.text ∨
        ∀ s : String, v = JSValue.str s → isDigits s = false) →
      getV (transformDataFromPayload P model r) f =
        getV (transformDataFromPayload P model r) (stripIdSuffix f)) := by
  have hlook : lookupField ms f = some fd :=
    lookupAssoc_eq_of_mem_nodup ms.fields f fd hnd hmem
  have hpfn : getPayloadFieldName P.schema model f = stripIdSuffix f := by
    simp [getPayloadFieldName, getFieldName, hms, hlook, href, hov]
  have hinbound : ∀ w : JSValue, transformDataForPayload P model [(f, w)] =
      [(stripIdSuffix f,
        if w = JSValue.null then w else coerceRefValue P.idType w)] := by
    intro w
    simp only [transformDataForPayload, hms, List.foldl_cons, List.foldl_nil,
      hpfn, hlook, href]
    by_cases hw : w = JSValue.null
    · subst hw
      simp [setV]
    · simp [setV, hw]
  -- split the schema field list around f
  obtain ⟨l1, l2, hsplit⟩ := List.append_of_mem hmem
  have hnd' := hnd
  rw [hsplit, List.map_append, List.map_cons] at hnd'
  rw [List.nodup_append] at hnd'
  obtain ⟨hnd1, hnd2, hdisj⟩ := hnd'
  rw [List.nodup_cons] at hnd2
  have hf2 : f ∉ l2.map Prod.fst := hnd2.1
  have hf1 : f ∉ l1.map Prod.fst := fun hm1 => hdisj hm1 (List.mem_cons_self _ _)
  have hsne : stripIdSuffix f ≠ f := stripIdSuffix_ne f hsuf
  have hne1 : ∀ p ∈ l1, p.1 ≠ f := by
    intro p hp heq
    exact hf1 (heq ▸ List.mem_map_of_mem Prod.fst hp)
  have hdate1 : ∀ p ∈ l1, p.1 = stripIdSuffix f → p.2.type ≠ FieldType.date := by
    intro p hp
    exact hdate p (by rw [hsplit]; exact List.mem_append_left _ hp)
  have hdate2 : ∀ p ∈ l2, p.1 = stripIdSuffix f → p.2.type ≠ FieldType.date := by
    intro p hp
    exact hdate p
      (by rw [hsplit]; exact List.mem_append_right _ (List.mem_cons_of_mem _ hp))
  have hvac2 : ∀ p ∈ l2, p.1 = f → p.2.type ≠ FieldType.date := by
    intro p hp heq
    exact absurd (heq ▸ List.mem_map_of_mem Prod.fst hp) hf2
  have hacc1f :
      getV (l1.foldl (fun acc p => restoreStep P r acc p.1 p.2) r) f = none := by
    rw [fold_restore_getV_of_not_mem P r l1 r f hne1]
    exact hrf
  have hacc1s :
      getV (l1.foldl (fun acc p => restoreStep P r acc p.1 p.2) r)
        (stripIdSuffix f) = some v :=
    fold_restore_getV_of_present P r l1 r (stripIdSuffix f) v hr hdate1
  have hacc2f :
      getV (restoreStep P r
        (l1.foldl (fun acc p => restoreStep P r acc p.1 p.2) r) f fd) f = some v :=
    restoreStep_sets P r _ f fd v hacc1f href hr hfdt
  have hacc2s :
      getV (restoreStep P r
        (l1.foldl (fun acc p => restoreStep P r acc p.1 p.2) r) f fd)
        (stripIdSuffix f) = some v := by
    rw [restoreStep_getV_ne P r _ f fd (stripIdSuffix f) hsne]
    exact hacc1s
  have hfin_f :
      getV (ms.fields.foldl (fun acc p => restoreStep P r acc p.1 p.2) r) f =
        some v := by
    rw [hsplit, List.foldl_append, List.foldl_cons]
    exact fold_restore_getV_of_present P r l2 _ f v hacc2f hvac2
  have hfin_s :
      getV (ms.fields.foldl (fun acc p => restoreStep P r acc p.1 p.2) r)
        (stripIdSuffix f) = some v := by
    rw [hsplit, List.foldl_append, List.foldl_cons]
    exact fold_restore_getV_of_present P r l2 _ (stripIdSuffix f) v hacc2s hdate2
  have houtf : getV (transformDataFromPayload P model r) f =
      some (if P.idType = IdType.number then
        numConvVal P.idFieldsAllowlist P.idFieldsBlocklist f v else v) := by
    simp only [transformDataFromPayload, hms]
    by_cases hidt : P.idType = IdType.number
    · rw [if_pos hidt, if_pos hidt, getV_convertIdFields, hfin_f]
      rfl
    · rw [if_neg hidt, if_neg hidt, hfin_f]
  have houts : getV (transformDataFromPayload P model r) (stripIdSuffix f) =
      some (if P.idType = IdType.number then
        numConvVal P.idFieldsAllowlist P.idFieldsBlocklist (stripIdSuffix f) v
        else v) := by
    simp only [transformDataFromPayload, hms]
    by_cases hidt : P.idType = IdType.number
    · rw [if_pos hidt, if_pos hidt, getV_convertIdFields, hfin_s]
      rfl
    · rw [if_neg hidt, if_neg hidt, hfin_s]
  refine ⟨hinbound, houtf, houts, ?_⟩
  intro hcase
  rw [houtf, houts]
  rcases hcase with htext | hnodig
  · rw [htext]
    simp
  · by_cases hidt : P.idType = IdType.number
    · have hv : ∀ k : String,
          numConvVal P.idFieldsAllowlist P.idFieldsBlocklist k v = v := by
        intro k
        cases v
        case str s =>
          have hds := hnodig s rfl
          simp [numConvVal_str, hds]
        all_goals rfl
      rw [if_pos hidt, if_pos hidt, hv, hv]
    · rw [if_neg hidt, if_neg hidt]

/-- C1 witness: `userId → user` inbound (value parsed to the numeric ID),
and outbound restoration of `userId` next to `user` with the same value
when the stored value is not a pure-digit string. -/
theorem C1_roundtrip_amended_witness :
    transformDataForPayload exParamsNum "session" [("userId", JSValue.str "7")] =
      [("user", JSValue.num 7)] ∧
    getV (transformDataFromPayload exParamsNum "session"
        [("user", JSValue.str "abc")]) "userId" = some (JSValue.str "abc") ∧
    getV (transformDataFromPayload exParamsNum "session"
        [("user", JSValue.str "abc")]) "user" = some (JSValue.str "abc") := by
  have h := C1_roundtrip_amended exParamsNum "session"
    { fields := [("userId", { references := some {} }), ("token", {})] }
    "userId" { references := some {} } [("user", JSValue.str "abc")]
    (JSValue.str "abc") rfl (by decide) (by decide) rfl (by decide) rfl
    (by decide) (by decide) rfl rfl
  exact ⟨h.1 (JSValue.str "7"), h.2.1, h.2.2.1⟩
